import Mathlib

/-!
Shallow embedding of the raster-analytics functions of
`src/A4_Zakir/geofunctions_A4_Khizer.py`, together with theorems settling
the specification claims about them.

Modelling conventions:
* A band is a 2-D array, embedded as `List (List ℚ)` (rows of pixels).
* A band stack (`src.read()`) is a `List Band`; `calculate_ndvi` reads
  `bands[2]` and `bands[3]`, which fails with an index error when the
  stack has fewer than 4 bands — embedded as `Option` with `none` for
  the error.
* For the ranking and statistics functions a pixel value is `Option ℚ`,
  where `none` stands for NaN; numpy sorts NaN after every number, and
  the nan-prefixed statistics exclude NaN entries.
-/

abbrev Band := List (List ℚ)

abbrev BandStack := List Band

/-- One pixel of the NDVI computation: `np.where(denominator != 0,
(nir - red)/denominator, 0)` followed by `np.clip(·, -1, 1)`. -/
def ndviPixel (red nir : ℚ) : ℚ :=
  let denominator := nir + red
  let raw := if denominator ≠ 0 then (nir - red) / denominator else 0
  if raw < -1 then -1 else if 1 < raw then 1 else raw

/-- The `if`-chain form of `np.clip (·, -1, 1)` agrees with
`min (max · (-1)) 1`. -/
theorem clip_eq_min_max (x : ℚ) :
    (if x < -1 then -1 else if 1 < x then 1 else x) = min (max x (-1)) 1 := by
  split_ifs with h1 h2
  · rw [max_eq_right h1.le, min_eq_left (by norm_num)]
  · rw [max_eq_left (not_lt.mp h1), min_eq_right h2.le]
  · rw [max_eq_left (not_lt.mp h1), min_eq_left (not_lt.mp h2)]

/-- The clip into `[-1, 1]` indeed lands in `[-1, 1]`. -/
theorem clip_bounds (x : ℚ) :
    -1 ≤ (if x < -1 then -1 else if 1 < x then (1:ℚ) else x) ∧
      (if x < -1 then -1 else if 1 < x then (1:ℚ) else x) ≤ 1 := by
  split_ifs with h1 h2
  · norm_num
  · norm_num
  · exact ⟨not_lt.mp h1, not_lt.mp h2⟩

/-- Embedding of `calculate_ndvi`: take `bands[2]` (red) and `bands[3]`
(near-infrared) and combine them pixelwise with `ndviPixel`.  Accessing
`bands[3]` on a stack of fewer than 4 bands raises an index error in the
source, embedded as `none`. -/
def calculate_ndvi (bands : BandStack) : Option Band :=
  if 3 < bands.length then
    let red_band := bands.getD 2 []
    let nir_band := bands.getD 3 []
    some (List.zipWith (fun rrow nrow => List.zipWith ndviPixel rrow nrow)
      red_band nir_band)
  else
    none

/-- Element access into a 2-D array, with out-of-range defaults. -/
def elem2 (a : List (List ℚ)) (i j : ℕ) : ℚ :=
  (a.getD i []).getD j 0

/-- `getD` through a `zipWith`, inside the common range. -/
theorem getD_zipWith {α β γ : Type} (f : α → β → γ) (da : α) (db : β) (dc : γ) :
    ∀ (l : List α) (l' : List β) (i : ℕ), i < l.length → i < l'.length →
      (List.zipWith f l l').getD i dc = f (l.getD i da) (l'.getD i db) := by
  intro l
  induction l with
  | nil => intro l' i hi _; simp at hi
  | cons a t ih =>
    intro l' i hi hi'
    cases l' with
    | nil => simp at hi'
    | cons b t' =>
      cases i with
      | zero => simp [List.getD]
      | succ k =>
        simp only [List.zipWith_cons_cons, List.getD_cons_succ]
        exact ih t' k (by simpa using hi) (by simpa using hi')

/-- Membership in a `zipWith` comes from a pair of inputs. -/
theorem of_mem_zipWith {α β γ : Type} (f : α → β → γ) :
    ∀ (l : List α) (l' : List β) (x : γ), x ∈ List.zipWith f l l' →
      ∃ a b, x = f a b := by
  intro l
  induction l with
  | nil => intro l' x hx; simp at hx
  | cons a t ih =>
    intro l' x hx
    cases l' with
    | nil => simp at hx
    | cons b t' =>
      simp only [List.zipWith_cons_cons] at hx
      rcases List.mem_cons.mp hx with hx | hx
      · exact ⟨a, b, hx⟩
      · exact ih t' x hx

/-- The band stack of the spec's concrete NDVI example: four 1x1 bands,
band 2 (red) = [[100]], band 3 (near-infrared) = [[300]]. -/
def exampleStack : BandStack := [[[0]], [[0]], [[100]], [[300]]]

/-- C1: on a stack of at least 4 bands whose red and near-infrared bands
share their shape, `calculate_ndvi` returns an array of that spatial
shape whose entries, wherever `nir + red ≠ 0`, equal
`(nir - red) / (nir + red)` clamped into `[-1, 1]`. -/
theorem ndvi_formula (stack : BandStack) (h : 3 < stack.length)
    (hrows : (stack.getD 3 []).length = (stack.getD 2 []).length)
    (hcols : ∀ i, i < (stack.getD 2 []).length →
      ((stack.getD 3 []).getD i []).length = ((stack.getD 2 []).getD i []).length) :
    ∃ a, calculate_ndvi stack = some a ∧
      a.length = (stack.getD 2 []).length ∧
      (∀ i, i < a.length → (a.getD i []).length = ((stack.getD 2 []).getD i []).length) ∧
      (∀ i j, i < (stack.getD 2 []).length → j < ((stack.getD 2 []).getD i []).length →
        elem2 (stack.getD 3 []) i j + elem2 (stack.getD 2 []) i j ≠ 0 →
        elem2 a i j = min (max ((elem2 (stack.getD 3 []) i j - elem2 (stack.getD 2 []) i j)
          / (elem2 (stack.getD 3 []) i j + elem2 (stack.getD 2 []) i j)) (-1)) 1) := by
  refine ⟨List.zipWith (fun rrow nrow => List.zipWith ndviPixel rrow nrow)
    (stack.getD 2 []) (stack.getD 3 []), ?_, ?_, ?_, ?_⟩
  · simp only [calculate_ndvi, if_pos h]
  · simp only [List.length_zipWith]
    omega
  · intro i hi
    simp only [List.length_zipWith] at hi
    rw [getD_zipWith _ [] [] [] _ _ i (by omega) (by omega), List.length_zipWith,
      hcols i (by omega)]
    omega
  · intro i j hi hj hz
    unfold elem2
    rw [getD_zipWith _ [] [] [] _ _ i hi (by omega),
      getD_zipWith ndviPixel 0 0 0 _ _ j hj (by rw [hcols i hi]; exact hj)]
    unfold elem2 at hz
    simp only [ndviPixel, if_pos hz]
    exact clip_eq_min_max _

/-- C1 witness: the spec's concrete example red=[[100]], nir=[[300]]
evaluates to exactly 1/2. -/
theorem ndvi_formula_witness :
    calculate_ndvi exampleStack = some [[1/2]] ∧
    (∃ a, calculate_ndvi exampleStack = some a ∧
      a.length = (exampleStack.getD 2 []).length ∧
      (∀ i, i < a.length →
        (a.getD i []).length = ((exampleStack.getD 2 []).getD i []).length) ∧
      (∀ i j, i < (exampleStack.getD 2 []).length →
        j < ((exampleStack.getD 2 []).getD i []).length →
        elem2 (exampleStack.getD 3 []) i j + elem2 (exampleStack.getD 2 []) i j ≠ 0 →
        elem2 a i j =
          min (max ((elem2 (exampleStack.getD 3 []) i j - elem2 (exampleStack.getD 2 []) i j)
            / (elem2 (exampleStack.getD 3 []) i j + elem2 (exampleStack.getD 2 []) i j))
            (-1)) 1)) :=
  ⟨by norm_num [calculate_ndvi, exampleStack, ndviPixel],
    ndvi_formula exampleStack (by decide) (by decide) (by decide)⟩

/-- C2: wherever the red and near-infrared bands sum to exactly zero,
the NDVI value returned at that position is exactly 0. -/
theorem ndvi_zero_denominator (stack : BandStack) (h : 3 < stack.length)
    (i j : ℕ) (hi2 : i < (stack.getD 2 []).length) (hi3 : i < (stack.getD 3 []).length)
    (hj2 : j < ((stack.getD 2 []).getD i []).length)
    (hj3 : j < ((stack.getD 3 []).getD i []).length)
    (hz : elem2 (stack.getD 3 []) i j + elem2 (stack.getD 2 []) i j = 0) :
    ∃ a, calculate_ndvi stack = some a ∧ elem2 a i j = 0 := by
  refine ⟨List.zipWith (fun rrow nrow => List.zipWith ndviPixel rrow nrow)
    (stack.getD 2 []) (stack.getD 3 []), ?_, ?_⟩
  · simp only [calculate_ndvi, if_pos h]
  · unfold elem2
    rw [getD_zipWith _ [] [] [] _ _ i hi2 hi3,
      getD_zipWith ndviPixel 0 0 0 _ _ j hj2 hj3]
    unfold elem2 at hz
    simp only [ndviPixel, hz, ne_eq, not_true_eq_false, if_false, ite_not]
    norm_num

/-- C2 witness: red=[[0]], nir=[[0]] yields NDVI value 0. -/
theorem ndvi_zero_denominator_witness :
    ∃ a, calculate_ndvi [[[(0:ℚ)]], [[0]], [[0]], [[0]]] = some a ∧ elem2 a 0 0 = 0 :=
  ndvi_zero_denominator [[[(0:ℚ)]], [[0]], [[0]], [[0]]] (by decide) 0 0
    (by decide) (by decide) (by decide) (by decide) (by norm_num [elem2])

/-- C3: every element of the array returned by `calculate_ndvi` lies in
the closed interval `[-1, 1]`, whatever the band values. -/
theorem ndvi_range (stack : BandStack) (a : Band)
    (ha : calculate_ndvi stack = some a) :
    ∀ row ∈ a, ∀ v ∈ row, -1 ≤ v ∧ v ≤ 1 := by
  intro row hrow v hv
  unfold calculate_ndvi at ha
  by_cases h : 3 < stack.length
  · rw [if_pos h] at ha
    have hz := Option.some_inj.mp ha
    obtain ⟨rrow, nrow, hr⟩ :=
      of_mem_zipWith (fun rrow nrow => List.zipWith ndviPixel rrow nrow)
        (stack.getD 2 []) (stack.getD 3 []) row (hz ▸ hrow)
    obtain ⟨r, n, hvn⟩ := of_mem_zipWith ndviPixel rrow nrow v (hr ▸ hv)
    subst hvn
    simp only [ndviPixel]
    exact clip_bounds _
  · rw [if_neg h] at ha
    cases ha

/-- C3 witness: the value 1/2 produced on the example stack lies in
`[-1, 1]`. -/
theorem ndvi_range_witness : -1 ≤ (1/2 : ℚ) ∧ (1/2 : ℚ) ≤ 1 :=
  ndvi_range exampleStack [[1/2]]
    (by norm_num [calculate_ndvi, exampleStack, ndviPixel]) [1/2] (by simp)
    (1/2) (by simp)

/-- C5: on a band stack of fewer than 4 bands, `calculate_ndvi` fails
(the access `bands[3]` raises) and returns no result. -/
theorem ndvi_under_four_bands (stack : BandStack) (h : stack.length < 4) :
    calculate_ndvi stack = none := by
  unfold calculate_ndvi
  rw [if_neg (by omega)]

/-- C5 witness: a 3-band stack produces no NDVI result. -/
theorem ndvi_under_four_bands_witness :
    calculate_ndvi [[[(1:ℚ)]], [[2]], [[3]]] = none :=
  ndvi_under_four_bands [[[(1:ℚ)]], [[2]], [[3]]] (by decide)

/-- C8: the NDVI computation has no hidden state: its result is a
function of the input bands alone (indeed only of bands 2 and 3), so two
runs on identical band data give identical outputs. -/
theorem ndvi_deterministic (s₁ s₂ : BandStack)
    (h₁ : 3 < s₁.length) (h₂ : 3 < s₂.length)
    (e2 : s₁.getD 2 [] = s₂.getD 2 []) (e3 : s₁.getD 3 [] = s₂.getD 3 []) :
    calculate_ndvi s₁ = calculate_ndvi s₂ := by
  simp only [calculate_ndvi, if_pos h₁, if_pos h₂, e2, e3]

/-- C8 witness: two stacks agreeing on bands 2 and 3 (band 0 differs)
give the same NDVI output. -/
theorem ndvi_deterministic_witness :
    calculate_ndvi [[[(5:ℚ)]], [[0]], [[100]], [[300]]] =
      calculate_ndvi [[[(7:ℚ)]], [[1]], [[100]], [[300]]] :=
  ndvi_deterministic _ _ (by decide) (by decide) rfl rfl

/-! ### Top-values ranking: `get_top_ndvi_values` -/

/-- A pixel value as seen by the ranking and statistics functions:
`none` stands for NaN. -/
abbrev Val := Option ℚ

/-- The comparison numpy's sort effectively uses on such values:
NaN (`none`) sorts after every number. -/
def valLe : Val → Val → Prop
  | _, none => True
  | none, some _ => False
  | some x, some y => x ≤ y

instance instValLeDecidable : (a b : Val) → Decidable (valLe a b)
  | none, none => isTrue trivial
  | some _, none => isTrue trivial
  | none, some _ => isFalse fun h => h
  | some x, some y => inferInstanceAs (Decidable (x ≤ y))

theorem valLe_total (a b : Val) : valLe a b ∨ valLe b a := by
  cases a <;> cases b <;> simp [valLe]
  exact le_total _ _

theorem valLe_trans {a b c : Val} (h₁ : valLe a b) (h₂ : valLe b c) : valLe a c := by
  cases a <;> cases b <;> cases c <;> simp_all [valLe]
  exact le_trans h₁ h₂

/-- Embedding of `flat_ndvi.argsort()`: the list of flat indices of `l`,
sorted so that the values they point at are ascending (NaN last). -/
def argsort (l : List Val) : List ℕ :=
  List.insertionSort (fun i j => valLe (l.getD i none) (l.getD j none))
    (List.range l.length)

/-- Python's slice `l[s:]` (negative `s` counts from the end). -/
def pySliceFrom {α : Type} (l : List α) (s : ℤ) : List α :=
  if s < 0 then l.drop (l.length - (-s).toNat) else l.drop s.toNat

/-- Embedding of `get_top_ndvi_values`: flatten row-major, argsort, take
the slice `[-num_values:]`, reverse, and pair each value with its flat
index (the two DataFrame columns). -/
def get_top_ndvi_values (ndvi : List (List Val)) (num_values : ℤ) :
    List (Val × ℕ) :=
  let flat_ndvi := ndvi.flatten
  let top_indices := (pySliceFrom (argsort flat_ndvi) (-num_values)).reverse
  let top_values := top_indices.map (fun i => flat_ndvi.getD i none)
  top_values.zip top_indices

theorem zip_map_self {α β : Type} (f : α → β) :
    ∀ l : List α, (l.map f).zip l = l.map (fun a => (f a, a))
  | [] => rfl
  | a :: t => by simp [zip_map_self f t]

theorem map_getD_range {α : Type} (d : α) :
    ∀ l : List α, (List.range l.length).map (fun i => l.getD i d) = l
  | [] => rfl
  | a :: t => by
    rw [List.length_cons, List.range_succ_eq_map, List.map_cons, List.map_map]
    simp only [Function.comp_def, List.getD_cons_succ, List.getD_cons_zero]
    rw [map_getD_range d t]

theorem argsort_perm (l : List Val) :
    List.Perm (argsort l) (List.range l.length) :=
  List.perm_insertionSort _ _

theorem argsort_length (l : List Val) : (argsort l).length = l.length := by
  rw [(argsort_perm l).length_eq, List.length_range]

theorem argsort_sorted (l : List Val) :
    List.Sorted (fun i j => valLe (l.getD i none) (l.getD j none)) (argsort l) := by
  haveI : IsTotal ℕ (fun i j => valLe (l.getD i none) (l.getD j none)) :=
    ⟨fun _ _ => valLe_total _ _⟩
  haveI : IsTrans ℕ (fun i j => valLe (l.getD i none) (l.getD j none)) :=
    ⟨fun _ _ _ h₁ h₂ => valLe_trans h₁ h₂⟩
  exact List.sorted_insertionSort _ _

/-- The values of `l` in the order `argsort l` visits them. -/
def sortedVals (l : List Val) : List Val :=
  (argsort l).map (fun i => l.getD i none)

theorem sortedVals_sorted (l : List Val) : List.Sorted valLe (sortedVals l) :=
  List.Pairwise.map _ (fun _ _ h => h) (argsort_sorted l)

theorem sortedVals_perm (l : List Val) : List.Perm (sortedVals l) l := by
  have h := (argsort_perm l).map (fun i => l.getD i none)
  rw [map_getD_range] at h
  exact h

theorem sortedVals_length (l : List Val) : (sortedVals l).length = l.length :=
  (sortedVals_perm l).length_eq

/-- The table built by `get_top_ndvi_values`, in map form. -/
theorem get_top_eq (ndvi : List (List Val)) (num : ℤ) :
    get_top_ndvi_values ndvi num =
      ((pySliceFrom (argsort ndvi.flatten) (-num)).reverse).map
        (fun i => (ndvi.flatten.getD i none, i)) := by
  simp only [get_top_ndvi_values]
  exact zip_map_self _ _

/-- For a positive requested count `N`, the slice `[-N:]` keeps the last
`min N n` sorted indices. -/
theorem slice_pos (l : List Val) (N : ℕ) (hN : 1 ≤ N) :
    pySliceFrom (argsort l) (-(N : ℤ)) = (argsort l).drop (l.length - N) := by
  unfold pySliceFrom
  rw [if_pos (by omega : -(N : ℤ) < 0), argsort_length]
  norm_num

/-- Any reversed suffix of the argsort, paired with its values, is
descending by value. -/
theorem top_table_sorted (l : List Val) (k : ℕ) :
    List.Sorted (fun p q : Val × ℕ => valLe q.1 p.1)
      ((((argsort l).drop k).reverse).map (fun i => (l.getD i none, i))) := by
  have h1 : List.Pairwise (fun i j => valLe (l.getD i none) (l.getD j none))
      ((argsort l).drop k) :=
    List.Pairwise.sublist (List.drop_sublist k (argsort l)) (argsort_sorted l)
  have h2 := List.pairwise_reverse.mpr h1
  exact List.Pairwise.map _ (fun _ _ h => h) h2

/-- The full reversed argsort, paired with its values, enumerates every
element of `l`. -/
theorem top_table_perm (l : List Val) :
    List.Perm ((((argsort l).reverse).map (fun i => (l.getD i none, i))).map
      Prod.fst) l := by
  rw [List.map_map]
  have h := (List.reverse_perm (argsort l)).map (fun i => l.getD i none)
  exact h.trans (sortedVals_perm l)

/-- C4: on an NDVI array without NaN entries and a positive requested
count `N`, the table has exactly `min N n` rows, is sorted descending by
value, every row's flat index dereferences (row-major) to its reported
value, and for `N ≥ n` it contains all elements sorted descending. -/
theorem get_top_correct (ndvi : List (List Val)) (N : ℕ) (hN : 1 ≤ N)
    (hnan : ∀ v ∈ ndvi.flatten, v ≠ none) :
    (get_top_ndvi_values ndvi (N : ℤ)).length = min N ndvi.flatten.length ∧
    List.Sorted (fun p q : Val × ℕ => valLe q.1 p.1)
      (get_top_ndvi_values ndvi (N : ℤ)) ∧
    (∀ p ∈ get_top_ndvi_values ndvi (N : ℤ),
      ndvi.flatten.getD p.2 none = p.1) ∧
    (ndvi.flatten.length ≤ N →
      List.Perm ((get_top_ndvi_values ndvi (N : ℤ)).map Prod.fst)
        ndvi.flatten) := by
  refine ⟨?_, ?_, ?_, ?_⟩
  · rw [get_top_eq, slice_pos _ _ hN]
    simp only [List.length_map, List.length_reverse, List.length_drop,
      argsort_length]
    omega
  · rw [get_top_eq, slice_pos _ _ hN]
    exact top_table_sorted _ _
  · intro p hp
    rw [get_top_eq] at hp
    obtain ⟨i, _, rfl⟩ := List.mem_map.mp hp
    rfl
  · intro hn
    rw [get_top_eq, slice_pos _ _ hN]
    have hk : ndvi.flatten.length - N = 0 := by omega
    rw [hk, List.drop_zero]
    exact top_table_perm _

/-- C4 witness at the 2x?-array [[3, 1], [2]] and N = 2. -/
theorem get_top_correct_witness :
    (get_top_ndvi_values [[some 3, some 1], [some 2]] ((2 : ℕ) : ℤ)).length =
      min 2 ([[some 3, some 1], [some 2]] : List (List Val)).flatten.length ∧
    List.Sorted (fun p q : Val × ℕ => valLe q.1 p.1)
      (get_top_ndvi_values [[some 3, some 1], [some 2]] ((2 : ℕ) : ℤ)) ∧
    (∀ p ∈ get_top_ndvi_values [[some 3, some 1], [some 2]] ((2 : ℕ) : ℤ),
      ([[some 3, some 1], [some 2]] : List (List Val)).flatten.getD p.2 none = p.1) ∧
    (([[some 3, some 1], [some 2]] : List (List Val)).flatten.length ≤ 2 →
      List.Perm ((get_top_ndvi_values [[some 3, some 1], [some 2]]
        ((2 : ℕ) : ℤ)).map Prod.fst)
        ([[some 3, some 1], [some 2]] : List (List Val)).flatten) :=
  get_top_correct [[some 3, some 1], [some 2]] 2 (by decide) (by decide)

/-- C9: a requested count of exactly 0 returns the whole array sorted
descending (the slice `[-0:]` is `[0:]`), not an empty table. -/
theorem get_top_count_zero (ndvi : List (List Val)) :
    (get_top_ndvi_values ndvi 0).length = ndvi.flatten.length ∧
    List.Sorted (fun p q : Val × ℕ => valLe q.1 p.1)
      (get_top_ndvi_values ndvi 0) ∧
    List.Perm ((get_top_ndvi_values ndvi 0).map Prod.fst) ndvi.flatten := by
  have hslice : pySliceFrom (argsort ndvi.flatten) (-(0 : ℤ)) =
      argsort ndvi.flatten := by
    unfold pySliceFrom
    norm_num
  refine ⟨?_, ?_, ?_⟩
  · rw [get_top_eq, hslice]
    simp [argsort_length]
  · rw [get_top_eq, hslice, ← List.drop_zero (argsort ndvi.flatten)]
    exact top_table_sorted _ 0
  · rw [get_top_eq, hslice]
    exact top_table_perm _

/-- C6 counterexample: with requested count 0 the function does NOT
fail with a validation error — it returns a (non-empty) table, here the
single row (0, 0). -/
theorem get_top_no_validation_counterexample :
    get_top_ndvi_values [[some 0]] 0 = [(some 0, 0)] := by decide

/-- C6 amended: `get_top_ndvi_values` performs no validation of the
requested count.  For every count ≤ 0 it still returns a table: sorted
descending, of length `n - min(-count, n)` (so count 0 yields all `n`
elements). -/
theorem get_top_nonpositive (ndvi : List (List Val)) (num : ℤ)
    (hnum : num ≤ 0) :
    (get_top_ndvi_values ndvi num).length =
      ndvi.flatten.length - (-num).toNat ∧
    List.Sorted (fun p q : Val × ℕ => valLe q.1 p.1)
      (get_top_ndvi_values ndvi num) := by
  have hslice : pySliceFrom (argsort ndvi.flatten) (-num) =
      (argsort ndvi.flatten).drop (-num).toNat := by
    unfold pySliceFrom
    rw [if_neg (by omega)]
  constructor
  · rw [get_top_eq, hslice]
    simp [argsort_length]
  · rw [get_top_eq, hslice]
    exact top_table_sorted _ _

/-- C6 amended witness: count -1 on [[0, 1]] returns one row (all but
the 1 smallest), sorted descending. -/
theorem get_top_nonpositive_witness :
    (get_top_ndvi_values [[some 0, some 1]] (-1)).length =
      ([[some 0, some 1]] : List (List Val)).flatten.length - (-(-1 : ℤ)).toNat ∧
    List.Sorted (fun p q : Val × ℕ => valLe q.1 p.1)
      (get_top_ndvi_values [[some 0, some 1]] (-1)) :=
  get_top_nonpositive [[some 0, some 1]] (-1) (by decide)

/-- In a `valLe`-ascending list, if at least `m` entries are `none`
(NaN), the last `m` entries are all `none`. -/
theorem sorted_count_none_suffix :
    ∀ s : List Val, List.Sorted valLe s →
      ∀ m, m ≤ s.countP (fun v => v.isNone) →
        ∀ x ∈ s.drop (s.length - m), x = none := by
  intro s
  induction s with
  | nil => intro _ m _ x hx; simp at hx
  | cons a t ih =>
    intro hs m hc x hx
    rw [List.sorted_cons] at hs
    obtain ⟨ha, ht⟩ := hs
    by_cases hm : (a :: t).length ≤ m
    · have hlen : (a :: t).countP (fun v => v.isNone) = (a :: t).length := by
        have hle := List.countP_le_length (p := fun v : Val => v.isNone)
          (l := a :: t)
        omega
      have hall := (List.countP_eq_length).mp hlen
      exact Option.isNone_iff_eq_none.mp (hall x (List.mem_of_mem_drop hx))
    · simp only [List.length_cons] at hm hx
      rw [show t.length + 1 - m = (t.length - m) + 1 from by omega,
        List.drop_succ_cons] at hx
      cases a with
      | none =>
        have hxt : x ∈ t := List.mem_of_mem_drop hx
        have hax := ha x hxt
        cases x with
        | none => rfl
        | some y => exact absurd hax (by simp [valLe])
      | some q =>
        refine ih ht m ?_ x hx
        have hcnt : (some q :: t).countP (fun v : Val => v.isNone) =
            t.countP (fun v : Val => v.isNone) := by
          rw [List.countP_cons]
          simp [Option.isNone]
        omega

/-- C10: NaN entries sort to the end of the ascending argsort, so they
fill the returned table: if the array has at least `N ≥ 1` NaN entries,
every value in the table returned for count `N` is NaN. -/
theorem get_top_nan (ndvi : List (List Val)) (N : ℕ) (hN : 1 ≤ N)
    (hcount : N ≤ ndvi.flatten.countP (fun v => v.isNone)) :
    ∀ p ∈ get_top_ndvi_values ndvi (N : ℤ), p.1 = none := by
  intro p hp
  rw [get_top_eq, slice_pos _ _ hN] at hp
  obtain ⟨i, hi, rfl⟩ := List.mem_map.mp hp
  show ndvi.flatten.getD i none = none
  have hi' : i ∈ (argsort ndvi.flatten).drop (ndvi.flatten.length - N) :=
    List.mem_reverse.mp hi
  have hmem : ndvi.flatten.getD i none ∈
      (sortedVals ndvi.flatten).drop (ndvi.flatten.length - N) := by
    unfold sortedVals
    rw [← List.map_drop]
    exact List.mem_map_of_mem _ hi'
  refine sorted_count_none_suffix (sortedVals ndvi.flatten)
    (sortedVals_sorted _) N ?_ _ ?_
  · rw [(sortedVals_perm ndvi.flatten).countP_eq]
    exact hcount
  · rw [sortedVals_length]
    exact hmem

/-- C10 witness: [[NaN, 0]] with N = 1 returns the table [(NaN, 0)];
its row's value is NaN. -/
theorem get_top_nan_witness :
    ((none, 0) : Val × ℕ).1 = none :=
  get_top_nan [[none, some 0]] 1 (by decide) (by decide) (none, 0) (by decide)

/-! ### Statistics summary: `print_ndvi_stats` -/

/-- The numeric (non-NaN) entries of an array, in row-major order — the
set over which every `np.nan*` reduction works. -/
def nanfilter (a : List (List Val)) : List ℚ :=
  a.flatten.filterMap id

/-- `np.nanmin`: minimum over non-NaN entries (`none` when there are
none at all). -/
def nanmin (a : List (List Val)) : Option ℚ :=
  match nanfilter a with
  | [] => none
  | x :: xs => some (xs.foldl (fun m y => if y < m then y else m) x)

/-- `np.nanmax`: maximum over non-NaN entries. -/
def nanmax (a : List (List Val)) : Option ℚ :=
  match nanfilter a with
  | [] => none
  | x :: xs => some (xs.foldl (fun m y => if m < y then y else m) x)

/-- `np.nanmean`: arithmetic mean over non-NaN entries. -/
def nanmean (a : List (List Val)) : Option ℚ :=
  let l := nanfilter a
  if l.length = 0 then none else some (l.sum / l.length)

/-- `np.nanmedian`: sort the non-NaN entries ascending; middle element
for odd count, average of the two middle elements for even count. -/
def nanmedian (a : List (List Val)) : Option ℚ :=
  let s := List.insertionSort (· ≤ ·) (nanfilter a)
  let n := s.length
  if n = 0 then none
  else if n % 2 = 1 then some (s.getD (n / 2) 0)
  else some ((s.getD (n / 2 - 1) 0 + s.getD (n / 2) 0) / 2)

/-- The square of `np.nanstd` (population standard deviation, `ddof=0`):
the mean squared deviation of the non-NaN entries from their mean.
`np.nanstd` itself is the non-negative square root of this rational. -/
def nanstd_sq (a : List (List Val)) : Option ℚ :=
  let l := nanfilter a
  if l.length = 0 then none
  else
    let mean := l.sum / l.length
    some ((l.map (fun x => (x - mean) ^ 2)).sum / l.length)

/-- The NDVI array of the spec's statistics example. -/
def exampleNDVI : List (List Val) :=
  [[some (-1), some 0], [some (1/2), some 1]]

/-- The same array with NaN entries appended. -/
def exampleNDVInan : List (List Val) :=
  [[some (-1), some 0], [some (1/2), some 1], [none, none]]

/-- C7: on [[-1, 0], [0.5, 1]] the statistics summary reports
min = -1, max = 1, mean = 1/8 = 0.125, the median of the 4 values
(= (0 + 1/2)/2 = 1/4), and the population standard deviation of the 4
values (its square is the mean squared deviation, divided by 4, not 3);
and each statistic excludes NaN entries (appending NaNs changes
nothing). -/
theorem ndvi_stats :
    nanmin exampleNDVI = some (-1) ∧
    nanmax exampleNDVI = some 1 ∧
    nanmean exampleNDVI = some (1/8) ∧
    nanmedian exampleNDVI = some ((0 + 1/2) / 2) ∧
    nanstd_sq exampleNDVI =
      some ((((-1 : ℚ) - 1/8)^2 + (0 - 1/8)^2 + (1/2 - 1/8)^2 + (1 - 1/8)^2) / 4) ∧
    nanmin exampleNDVInan = nanmin exampleNDVI ∧
    nanmax exampleNDVInan = nanmax exampleNDVI ∧
    nanmean exampleNDVInan = nanmean exampleNDVI ∧
    nanmedian exampleNDVInan = nanmedian exampleNDVI ∧
    nanstd_sq exampleNDVInan = nanstd_sq exampleNDVI := by
  refine ⟨?_, ?_, ?_, ?_, ?_, ?_, ?_, ?_, ?_, ?_⟩
  · norm_num [nanmin, nanfilter, exampleNDVI, List.filterMap_cons, List.foldl]
  · norm_num [nanmax, nanfilter, exampleNDVI, List.filterMap_cons, List.foldl]
  · norm_num [nanmean, nanfilter, exampleNDVI, List.filterMap_cons]
  · norm_num [nanmedian, nanfilter, exampleNDVI, List.filterMap_cons,
      List.insertionSort, List.orderedInsert]
  · norm_num [nanstd_sq, nanfilter, exampleNDVI, List.filterMap_cons]
  · norm_num [nanmin, nanfilter, exampleNDVI, exampleNDVInan,
      List.filterMap_cons, List.foldl]
  · norm_num [nanmax, nanfilter, exampleNDVI, exampleNDVInan,
      List.filterMap_cons, List.foldl]
  · norm_num [nanmean, nanfilter, exampleNDVI, exampleNDVInan, List.filterMap_cons]
  · norm_num [nanmedian, nanfilter, exampleNDVI, exampleNDVInan,
      List.filterMap_cons, List.insertionSort, List.orderedInsert]
  · norm_num [nanstd_sq, nanfilter, exampleNDVI, exampleNDVInan, List.filterMap_cons]
